import Mathlib

/-!
Verification of the AST transformation and semantic-preservation pipeline:
a shallow embedding of the IR data model, the semantic transformer
(constant folding, dead-code elimination, loop unrolling, expression
simplification), the rename-based AST transformer, the equivalence
checker and the code generator, together with theorems settling the
specified properties.

Machine integers (`i64`) are modelled as unbounded `Int`; Rust's `/` on
`i64` truncates toward zero, which is `Int.tdiv`. Hash maps are modelled
as functions into `Option`, hash sets as Boolean predicates.
-/

namespace Batuta

/-- Binary operators of the simplified expression IR (`Op` in the source). -/
inductive Op where
  | add
  | sub
  | mul
  | div
deriving DecidableEq

/-- Expressions of the simplified IR (`Expr` in the source): integer
literals, variable references, binary operations and function calls. -/
inductive Expr where
  | int (n : Int)
  | var (name : String)
  | binop (op : Op) (left right : Expr)
  | call (name : String) (args : List Expr)

/-- Statements of the simplified IR (`Stmt` in the source): assignment,
conditional with two blocks, counted loop, and expression statement. -/
inductive Stmt where
  | assign (name : String) (value : Expr)
  | ifStmt (condition : Expr) (then_block else_block : List Stmt)
  | loop (count : Int) (body : List Stmt)
  | expr (e : Expr)

/-- The five transformation strategies (`TransformationType`). -/
inductive TransformationType where
  | constantFolding
  | deadCodeElimination
  | loopUnrolling
  | functionInlining
  | expressionSimplification
deriving DecidableEq

/-- Semantic preservation guarantee level (`PreservationLevel`); the
source's `Unsafe` variant is called `unchecked` here. -/
inductive PreservationLevel where
  | guaranteed
  | likely
  | unchecked
deriving DecidableEq

mutual
/-- Structural equality of expressions, mirroring the derived `PartialEq`
on `Expr` in the source. -/
def Expr.beq : Expr → Expr → Bool
  | .int a, .int b => a == b
  | .var a, .var b => a == b
  | .binop o1 l1 r1, .binop o2 l2 r2 => o1 == o2 && Expr.beq l1 l2 && Expr.beq r1 r2
  | .call n1 a1, .call n2 a2 => n1 == n2 && Expr.beqList a1 a2
  | _, _ => false

/-- Structural equality on lists of expressions (argument lists). -/
def Expr.beqList : List Expr → List Expr → Bool
  | [], [] => true
  | x :: xs, y :: ys => Expr.beq x y && Expr.beqList xs ys
  | _, _ => false
end

/-- The semantic transformer state (`SemanticTransformer`): the map of
variables known constant, the set of dead variables, and the maximum
loop unroll count (default 8). -/
structure SemanticTransformer where
  constant_vars : String → Option Int
  dead_vars : String → Bool
  max_unroll : Int

/-- Fresh transformer as built by `SemanticTransformer::new()`. -/
def SemanticTransformer.new : SemanticTransformer :=
  ⟨fun _ => none, fun _ => false, 8⟩

/-- Builder `with_max_unroll`. -/
def SemanticTransformer.with_max_unroll
    (tr : SemanticTransformer) (m : Int) : SemanticTransformer :=
  ⟨tr.constant_vars, tr.dead_vars, m⟩

mutual
/-- Constant folding (`SemanticTransformer::constant_fold`), parameterised
by the transformer's `constant_vars` map: fold a binary operation when
both folded operands are integer literals, leaving division by a literal
zero unfolded; substitute known-constant variables; recurse into call
arguments. -/
def constant_fold (cv : String → Option Int) : Expr → Expr
  | .binop op l r =>
    match constant_fold cv l, constant_fold cv r with
    | .int a, .int b =>
      match op with
      | .add => .int (a + b)
      | .sub => .int (a - b)
      | .mul => .int (a * b)
      | .div => if b ≠ 0 then .int (Int.tdiv a b) else .binop .div (.int a) (.int b)
    | lf, rf => .binop op lf rf
  | .var name =>
    match cv name with
    | some v => .int v
    | none => .var name
  | .call name args => .call name (constant_fold_list cv args)
  | .int n => .int n

/-- Constant folding mapped over an argument list. -/
def constant_fold_list (cv : String → Option Int) : List Expr → List Expr
  | [] => []
  | e :: es => constant_fold cv e :: constant_fold_list cv es
end

mutual
/-- Statement-level constant folding (`apply_constant_folding`), threading
the `changes` counter: folds the expressions of assignments and
expression statements (counting a change when folding altered the
expression), folds an `if`'s condition and recurses into both branches,
and recurses into loop bodies. -/
def apply_constant_folding (tr : SemanticTransformer) : Stmt → Nat → Stmt × Nat
  | .assign name value, ch =>
    let folded := constant_fold tr.constant_vars value
    (.assign name folded, if Expr.beq folded value then ch else ch + 1)
  | .ifStmt condition then_block else_block, ch =>
    let folded_cond := constant_fold tr.constant_vars condition
    let p1 := apply_constant_folding_list tr then_block ch
    let p2 := apply_constant_folding_list tr else_block p1.2
    (.ifStmt folded_cond p1.1 p2.1, p2.2)
  | .loop count body, ch =>
    let p := apply_constant_folding_list tr body ch
    (.loop count p.1, p.2)
  | .expr e, ch =>
    let folded := constant_fold tr.constant_vars e
    (.expr folded, if Expr.beq folded e then ch else ch + 1)

/-- Statement-level constant folding over a block. -/
def apply_constant_folding_list (tr : SemanticTransformer) : List Stmt → Nat → List Stmt × Nat
  | [], ch => ([], ch)
  | s :: ss, ch =>
    let p := apply_constant_folding tr s ch
    let ps := apply_constant_folding_list tr ss p.2
    (p.1 :: ps.1, ps.2)
end

mutual
/-- Dead-code elimination (`apply_dead_code_elimination`): when an `if`'s
condition is an integer literal, count one change and keep only the
taken branch (collapsed to its sole statement when it has exactly one,
re-wrapped in an always-true/false `if` shell otherwise, or replaced by
the no-op `Expr(Int(0))` when the condition is zero and the else block
is empty); otherwise recurse into both branches. Statements other than
`if` pass through unchanged. -/
def apply_dead_code_elimination (tr : SemanticTransformer) : Stmt → Nat → Stmt × Nat
  | .ifStmt (.int v) then_block else_block, ch =>
    if v ≠ 0 then
      (match then_block with
       | [s] => s
       | _ => .ifStmt (.int 1) then_block [], ch + 1)
    else
      (match else_block with
       | [s] => s
       | [] => .expr (.int 0)
       | _ => .ifStmt (.int 0) [] else_block, ch + 1)
  | .ifStmt condition then_block else_block, ch =>
    let p1 := apply_dead_code_elimination_list tr then_block ch
    let p2 := apply_dead_code_elimination_list tr else_block p1.2
    (.ifStmt condition p1.1 p2.1, p2.2)
  | other, ch => (other, ch)

/-- Dead-code elimination over a block. -/
def apply_dead_code_elimination_list (tr : SemanticTransformer) : List Stmt → Nat → List Stmt × Nat
  | [], ch => ([], ch)
  | s :: ss, ch =>
    let p := apply_dead_code_elimination tr s ch
    let ps := apply_dead_code_elimination_list tr ss p.2
    (p.1 :: ps.1, ps.2)
end

/-- Body of the unrolling loop `for _ in 0..count { unrolled.extend(body) }`:
`n` copies of `body` concatenated in order. -/
def unroll_copies : Nat → List Stmt → List Stmt
  | 0, _ => []
  | n + 1, body => unroll_copies n body ++ body

mutual
/-- Loop unrolling (`apply_loop_unrolling`): a loop with
`0 < count ≤ max_unroll` is replaced by its body repeated `count` times
inside an always-true `if` shell, counting one change; larger or
non-positive counts leave the loop untouched. Recurses into `if`
branches; other statements pass through. -/
def apply_loop_unrolling (tr : SemanticTransformer) : Stmt → Nat → Stmt × Nat
  | .loop count body, ch =>
    if count ≤ tr.max_unroll ∧ 0 < count then
      (.ifStmt (.int 1) (unroll_copies count.toNat body) [], ch + 1)
    else
      (.loop count body, ch)
  | .ifStmt condition then_block else_block, ch =>
    let p1 := apply_loop_unrolling_list tr then_block ch
    let p2 := apply_loop_unrolling_list tr else_block p1.2
    (.ifStmt condition p1.1 p2.1, p2.2)
  | other, ch => (other, ch)

/-- Loop unrolling over a block. -/
def apply_loop_unrolling_list (tr : SemanticTransformer) : List Stmt → Nat → List Stmt × Nat
  | [], ch => ([], ch)
  | s :: ss, ch =>
    let p := apply_loop_unrolling tr s ch
    let ps := apply_loop_unrolling_list tr ss p.2
    (p.1 :: ps.1, ps.2)
end

/-- Simplification match over the two already-simplified operands: the
local identities `x + 0 = x`, `0 + x = x`, `x * 1 = x`, `1 * x = x`,
`x * 0 = 0`, `0 * x = 0`, each counting one change, with the rebuilt
binary operation as the fallthrough. -/
def simplify_binop : Expr → Op → Expr → Nat → Expr × Nat
  | ls, .add, .int 0, ch => (ls, ch + 1)
  | .int 0, .add, rs, ch => (rs, ch + 1)
  | ls, .mul, .int 1, ch => (ls, ch + 1)
  | .int 1, .mul, rs, ch => (rs, ch + 1)
  | _, .mul, .int 0, ch => (.int 0, ch + 1)
  | .int 0, .mul, _, ch => (.int 0, ch + 1)
  | ls, o, rs, ch => (.binop o ls rs, ch)

/-- Expression simplification (`simplify_expr`): after recursing into the
operands of a binary operation, apply the local identities bottom-up
(`simplify_binop`); all other expressions pass through unchanged. -/
def simplify_expr : Expr → Nat → Expr × Nat
  | .binop op l r, ch =>
    let p1 := simplify_expr l ch
    let p2 := simplify_expr r p1.2
    simplify_binop p1.1 op p2.1 p2.2
  | other, ch => (other, ch)

/-- Statement-level expression simplification
(`apply_expression_simplification`): rewrites the expressions of
assignments and expression statements; every other statement (in
particular `if` and `loop`) passes through unchanged. -/
def apply_expression_simplification (tr : SemanticTransformer) : Stmt → Nat → Stmt × Nat
  | .assign name value, ch =>
    let p := simplify_expr value ch
    (.assign name p.1, p.2)
  | .expr e, ch =>
    let p := simplify_expr e ch
    (.expr p.1, p.2)
  | other, ch => (other, ch)

/-- Preservation level attached to each strategy
(`get_preservation_level`). -/
def get_preservation_level : TransformationType → PreservationLevel
  | .constantFolding => .guaranteed
  | .expressionSimplification => .guaranteed
  | .deadCodeElimination => .likely
  | .loopUnrolling => .likely
  | .functionInlining => .unchecked

/-- Result record of a statement transformation (`TransformationResult`). -/
structure TransformationResult where
  original : Stmt
  transformed : Stmt
  transformation_type : TransformationType
  preservation_level : PreservationLevel
  changes_made : Nat

/-- Strategy dispatch (`SemanticTransformer::transform_stmt`): applies the
chosen strategy with the change counter starting at zero (function
inlining is a placeholder passthrough) and packages the result. -/
def SemanticTransformer.transform_stmt
    (tr : SemanticTransformer) (stmt : Stmt) (trans_type : TransformationType) :
    TransformationResult :=
  let p :=
    match trans_type with
    | .constantFolding => apply_constant_folding tr stmt 0
    | .deadCodeElimination => apply_dead_code_elimination tr stmt 0
    | .loopUnrolling => apply_loop_unrolling tr stmt 0
    | .expressionSimplification => apply_expression_simplification tr stmt 0
    | .functionInlining => (stmt, 0)
  ⟨stmt, p.1, trans_type, get_preservation_level trans_type, p.2⟩

/-- The equivalence checker (`EquivalenceChecker`): a list of test cases,
each a variable binding. -/
structure EquivalenceChecker where
  test_cases : List (String → Option Int)

/-- Expression evaluation under a binding
(`EquivalenceChecker::eval_expr`): literals evaluate to themselves,
variables look up the binding (undefined when unbound), binary
operations evaluate both operands (undefined when either is, or on
division by zero), and calls are never evaluable. -/
def eval_expr (vars : String → Option Int) : Expr → Option Int
  | .int n => some n
  | .var name => vars name
  | .binop op l r =>
    match eval_expr vars l with
    | none => none
    | some a =>
      match eval_expr vars r with
      | none => none
      | some b =>
        match op with
        | .add => some (a + b)
        | .sub => some (a - b)
        | .mul => some (a * b)
        | .div => if b ≠ 0 then some (Int.tdiv a b) else none
  | .call _ _ => none

/-- Equivalence test (`EquivalenceChecker::expressions_equivalent`): with
no registered test cases, fall back to structural equality; otherwise
report equivalence exactly when every test case makes the two optional
evaluation results equal. -/
def EquivalenceChecker.expressions_equivalent
    (c : EquivalenceChecker) (e1 e2 : Expr) : Bool :=
  if c.test_cases.isEmpty then
    Expr.beq e1 e2
  else
    c.test_cases.all fun tcase => eval_expr tcase e1 == eval_expr tcase e2

/-- Binary operators of the richer AST (`BinaryOperator` in the source). -/
inductive BinaryOperator where
  | add
  | subtract
  | multiply
  | divide
  | equal
  | notEqual
  | less
  | greater
  | andOp
  | orOp
deriving DecidableEq

/-- Rendering of a binary operator, mirroring the `Display` impl. -/
def BinaryOperator.display : BinaryOperator → String
  | .add => "+"
  | .subtract => "-"
  | .multiply => "*"
  | .divide => "/"
  | .equal => "=="
  | .notEqual => "!="
  | .less => "<"
  | .greater => ">"
  | .andOp => "&&"
  | .orOp => "||"

/-- Literal values of the richer AST (`LiteralValue`). -/
inductive LiteralValue where
  | integer (n : Int)
  | float (f : Float)
  | str (s : String)
  | boolean (b : Bool)
  | null

/-- Nodes of the richer AST (`AstNode`): program root, function
definition, variable declaration, assignment, binary operation, call,
conditional with optional else branch, return, identifier reference and
literal. -/
inductive AstNode where
  | program (nodes : List AstNode)
  | function (name : String) (params : List String) (body : List AstNode)
  | varDecl (name : String) (value : AstNode)
  | assignment (target : String) (value : AstNode)
  | binaryOp (op : BinaryOperator) (left right : AstNode)
  | call (function : String) (args : List AstNode)
  | ifNode (condition : AstNode) (then_branch : List AstNode)
      (else_branch : Option (List AstNode))
  | ret (e : AstNode)
  | identifier (name : String)
  | literal (lit : LiteralValue)

/-- The rename-based transformer (`AstTransformer`): its rename table,
modelled as a partial map from old names to new names. -/
structure AstTransformer where
  renames : String → Option String

/-- Lookup-or-keep on the rename table (`rename_if_needed`). -/
def AstTransformer.rename_if_needed (tr : AstTransformer) (name : String) : String :=
  match tr.renames name with
  | some n => n
  | none => name

mutual
/-- Rename rewrite (`AstTransformer::transform`): applies the rename
table at every name position (function names at definition and call
sites, parameter names, declared and assigned variable names, identifier
references) and rebuilds every node recursively. -/
def AstTransformer.transform (tr : AstTransformer) : AstNode → AstNode
  | .program nodes => .program (AstTransformer.transform_list tr nodes)
  | .function name params body =>
    .function (tr.rename_if_needed name) (params.map tr.rename_if_needed)
      (AstTransformer.transform_list tr body)
  | .varDecl name value =>
    .varDecl (tr.rename_if_needed name) (tr.transform value)
  | .assignment target value =>
    .assignment (tr.rename_if_needed target) (tr.transform value)
  | .binaryOp op l r => .binaryOp op (tr.transform l) (tr.transform r)
  | .call f args => .call (tr.rename_if_needed f) (AstTransformer.transform_list tr args)
  | .ifNode condition then_branch else_branch =>
    .ifNode (tr.transform condition) (AstTransformer.transform_list tr then_branch)
      (match else_branch with
       | none => none
       | some nodes => some (AstTransformer.transform_list tr nodes))
  | .ret e => .ret (tr.transform e)
  | .identifier name => .identifier (tr.rename_if_needed name)
  | .literal lit => .literal lit

/-- Rename rewrite over a node list. -/
def AstTransformer.transform_list (tr : AstTransformer) : List AstNode → List AstNode
  | [] => []
  | n :: ns => tr.transform n :: AstTransformer.transform_list tr ns
end

/-- Count of occurrences of a name in a list of plain names. -/
def countNames (s : String) : List String → Nat
  | [] => 0
  | x :: xs => (if x = s then 1 else 0) + countNames s xs

mutual
/-- Count of the syntactic occurrences of a name in a tree, over exactly
the positions the rename rewrite touches: function names at definition
and call sites, parameter names, declared and assigned variable names,
and identifier references. -/
def countOcc (s : String) : AstNode → Nat
  | .program nodes => countOccList s nodes
  | .function name params body =>
    (if name = s then 1 else 0) + countNames s params + countOccList s body
  | .varDecl name value => (if name = s then 1 else 0) + countOcc s value
  | .assignment target value => (if target = s then 1 else 0) + countOcc s value
  | .binaryOp _ l r => countOcc s l + countOcc s r
  | .call f args => (if f = s then 1 else 0) + countOccList s args
  | .ifNode condition then_branch else_branch =>
    countOcc s condition + countOccList s then_branch +
      (match else_branch with
       | none => 0
       | some nodes => countOccList s nodes)
  | .ret e => countOcc s e
  | .identifier name => if name = s then 1 else 0
  | .literal _ => 0

/-- Occurrence count over a node list. -/
def countOccList (s : String) : List AstNode → Nat
  | [] => 0
  | n :: ns => countOcc s n + countOccList s ns
end

/-- The code generator state (`CodeGenerator`): current indentation level
and indent width (4 by default). -/
structure CodeGenerator where
  indent_level : Nat
  indent_size : Nat

/-- Fresh generator as built by `CodeGenerator::new()`. -/
def CodeGenerator.new : CodeGenerator := ⟨0, 4⟩

/-- Current indentation string (`CodeGenerator::indent`):
`indent_level * indent_size` spaces. -/
def indentStr (sz lvl : Nat) : String :=
  String.mk (List.replicate (lvl * sz) ' ')

mutual
/-- Expression renderer (`generate_expr`): pure, fully parenthesizing
binary operations; statement-shaped nodes render as the empty string. -/
def generate_expr : AstNode → String
  | .identifier name => name
  | .literal lit =>
    match lit with
    | .integer n => toString n
    | .float f => toString f
    | .str s => "\"" ++ s ++ "\""
    | .boolean b => toString b
    | .null => "null"
  | .binaryOp op l r =>
    "(" ++ generate_expr l ++ " " ++ op.display ++ " " ++ generate_expr r ++ ")"
  | .call f args =>
    f ++ "(" ++ String.intercalate ", " (generate_expr_list args) ++ ")"
  | _ => ""

/-- Expression renderer over an argument list. -/
def generate_expr_list : List AstNode → List String
  | [] => []
  | a :: rest => generate_expr a :: generate_expr_list rest
end

mutual
/-- Statement renderer (`generate_node`), with the mutable
`indent_level` made an explicit threaded state: block bodies are
rendered one statement per line at `level + 1`, and the level is
restored after each block. -/
def generate_node (sz : Nat) : AstNode → Nat → String × Nat
  | .program nodes, lvl =>
    let p := generate_node_list sz nodes lvl
    (String.intercalate "\n" p.1, p.2)
  | .function name params body, lvl =>
    let ind := indentStr sz lvl
    let params_str := String.intercalate ", " params
    let p := generate_body sz body (lvl + 1)
    (ind ++ "fn " ++ name ++ "(" ++ params_str ++ ") \x7b\n" ++ p.1 ++ ind ++ "\x7d",
      p.2 - 1)
  | .varDecl name value, lvl =>
    (indentStr sz lvl ++ "let " ++ name ++ " = " ++ generate_expr value ++ ";", lvl)
  | .assignment target value, lvl =>
    (indentStr sz lvl ++ target ++ " = " ++ generate_expr value ++ ";", lvl)
  | .call f args, lvl =>
    (indentStr sz lvl ++ f ++ "(" ++ String.intercalate ", " (generate_expr_list args)
      ++ ");", lvl)
  | .ifNode condition then_branch else_branch, lvl =>
    let ind := indentStr sz lvl
    let p := generate_body sz then_branch (lvl + 1)
    let base := ind ++ "if " ++ generate_expr condition ++ " \x7b\n" ++ p.1 ++ ind ++ "\x7d"
    (match else_branch with
     | none => (base, p.2 - 1)
     | some nodes =>
       let q := generate_body sz nodes ((p.2 - 1) + 1)
       (base ++ " else \x7b\n" ++ q.1 ++ ind ++ "\x7d", q.2 - 1))
  | .ret e, lvl =>
    (indentStr sz lvl ++ "return " ++ generate_expr e ++ ";", lvl)
  | other, lvl => (generate_expr other, lvl)

/-- Renderer for a program's top-level node list (joined with newlines by
the caller), threading the indentation state. -/
def generate_node_list (sz : Nat) : List AstNode → Nat → List String × Nat
  | [], lvl => ([], lvl)
  | n :: rest, lvl =>
    let p := generate_node sz n lvl
    let ps := generate_node_list sz rest p.2
    (p.1 :: ps.1, ps.2)

/-- Renderer for a block body: each statement followed by a newline,
threading the indentation state. -/
def generate_body (sz : Nat) : List AstNode → Nat → String × Nat
  | [], lvl => ("", lvl)
  | n :: rest, lvl =>
    let p := generate_node sz n lvl
    let ps := generate_body sz rest p.2
    (p.1 ++ "\n" ++ ps.1, ps.2)
end

/-- Code generation entry point (`CodeGenerator::generate`): renders the
tree from the generator's current state and returns the text together
with the generator's state after the call. -/
def CodeGenerator.generate (g : CodeGenerator) (ast : AstNode) : String × CodeGenerator :=
  let p := generate_node g.indent_size ast g.indent_level
  (p.1, ⟨p.2, g.indent_size⟩)

/-- A transformer whose rename table has the single entry `o → n`,
modelling the one-entry `HashMap` rename table of the rename-totality
property. -/
def single_rename (o n : String) : AstTransformer :=
  ⟨fun s => if s = o then some n else none⟩

/-- Denotation of a binary operator on integers, as the folding and
evaluation matches compute it (division is i64 truncating division). -/
def op_denote : Op → Int → Int → Int
  | .add, a, b => a + b
  | .sub, a, b => a - b
  | .mul, a, b => a * b
  | .div, a, b => Int.tdiv a b

/-- Appending one more copy of the body commutes with the flattened
replication. -/
theorem replicate_flatten_comm (k : Nat) (b : List Stmt) :
    (List.replicate k b).flatten ++ b = b ++ (List.replicate k b).flatten := by
  induction k with
  | zero => simp
  | succ m ihm =>
    simp only [List.replicate_succ, List.flatten_cons]
    rw [List.append_assoc, ihm, ← List.append_assoc]

/-- The unrolled body is the loop body concatenated `n` times. -/
theorem unroll_copies_eq (n : Nat) (b : List Stmt) :
    unroll_copies n b = (List.replicate n b).flatten := by
  induction n with
  | zero => rfl
  | succ k ih =>
    simp only [unroll_copies, ih, List.replicate_succ, List.flatten_cons]
    rw [replicate_flatten_comm]

/-- C1 counterexample: with one registered scenario (the empty binding),
comparing the unbound identifier `y` against the literal `0` returns
`false`, although the scenario does not yield two different defined
values: the first expression is undefined there. A one-sided undefined
evaluation is treated as a failure, not skipped. -/
theorem equivalence_one_sided_undefined_counterexample :
    (EquivalenceChecker.mk [fun _ => none]).expressions_equivalent
        (.var "y") (.int 0) = false ∧
    eval_expr (fun _ => none) (.var "y") = none ∧
    eval_expr (fun _ => none) (.int 0) = some 0 :=
  ⟨rfl, rfl, rfl⟩

/-- C1 (amended): with at least one registered scenario,
`expressions_equivalent` returns `true` exactly when every scenario
makes the two optional evaluation results equal: a scenario under which
both expressions are undefined counts as agreement (skipped), but a
scenario under which exactly one is undefined counts as a difference,
and the checker returns `false`. -/
theorem expressions_equivalent_iff (c : EquivalenceChecker) (e1 e2 : Expr)
    (h : c.test_cases ≠ []) :
    c.expressions_equivalent e1 e2 = true ↔
      ∀ tcase ∈ c.test_cases, eval_expr tcase e1 = eval_expr tcase e2 := by
  unfold EquivalenceChecker.expressions_equivalent
  rw [if_neg (by simpa using h)]
  simp [List.all_eq_true]

/-- Witness for C1: the spec's own sample, scenario `x = 5`, finds
`x + 3` equivalent to `8`. -/
theorem expressions_equivalent_iff_witness :
    (EquivalenceChecker.mk [fun s => if s = "x" then some 5 else none]).expressions_equivalent
      (.binop .add (.var "x") (.int 3)) (.int 8) = true := by
  refine (expressions_equivalent_iff
    (EquivalenceChecker.mk [fun s => if s = "x" then some 5 else none])
    (.binop .add (.var "x") (.int 3)) (.int 8) (by simp)).mpr ?_
  intro tcase htc
  rw [List.mem_singleton] at htc
  subst htc
  rfl

/-- C2 counterexample: dead-code elimination of an always-true `if` with
an empty then-branch returns the always-true `if` shell with two empty
blocks, not the no-op `Expr(Int(0))` the claim predicts for an empty
taken branch. -/
theorem dead_code_empty_then_counterexample :
    (SemanticTransformer.new.transform_stmt (.ifStmt (.int 1) [] [.expr (.int 5)])
        .deadCodeElimination).transformed = .ifStmt (.int 1) [] [] ∧
    (SemanticTransformer.new.transform_stmt (.ifStmt (.int 1) [] [.expr (.int 5)])
        .deadCodeElimination).transformed ≠ .expr (.int 0) := by
  refine ⟨rfl, ?_⟩
  intro h
  exact Stmt.noConfusion h

/-- C2 (amended): dead-code elimination of an `if` with a literal integer
condition discards the untaken branch and counts a change. A nonzero
condition leaves the then-branch's sole statement when that branch has
exactly one statement and otherwise (including the empty branch) the
always-true `if` shell around the then-branch; a zero condition leaves
the else-branch's sole statement when it has exactly one, the no-op
`Expr(Int(0))` when it is empty, and otherwise the always-false shell
around the else-branch. -/
theorem dead_code_elimination_literal_condition (tr : SemanticTransformer)
    (v : Int) (tb eb : List Stmt) :
    1 ≤ (tr.transform_stmt (.ifStmt (.int v) tb eb) .deadCodeElimination).changes_made ∧
    (tr.transform_stmt (.ifStmt (.int v) tb eb) .deadCodeElimination).transformed =
      if v = 0 then
        match eb with
        | [s] => s
        | [] => .expr (.int 0)
        | _ => .ifStmt (.int 0) [] eb
      else
        match tb with
        | [s] => s
        | _ => .ifStmt (.int 1) tb [] := by
  by_cases hv : v = 0 <;>
    simp [SemanticTransformer.transform_stmt, apply_dead_code_elimination, hv]

/-- C3 counterexample: simplifying `(y * 0) + 0` (an instance of
`Add(x, Int(0))`) yields the literal `0`, which is defined under the
empty binding, while the original expression is undefined there (`y` is
unbound): the simplified expression does not evaluate identically to the
original under every binding. -/
theorem simplify_undefined_counterexample :
    (simplify_expr (.binop .add (.binop .mul (.var "y") (.int 0)) (.int 0)) 0).1
      = .int 0 ∧
    eval_expr (fun _ => none)
      (.binop .add (.binop .mul (.var "y") (.int 0)) (.int 0)) = none ∧
    eval_expr (fun _ => none) (.int 0) = some 0 :=
  ⟨rfl, rfl, rfl⟩

/-- C3 (amended): expression simplification preserves every defined
evaluation: whenever the original expression evaluates to a value under
a binding, the simplified expression evaluates to the same value under
that binding. (Where the original is undefined, the `x * 0 = 0` rules
can make the simplified expression defined.) -/
theorem simplify_expr_preserves (tcase : String → Option Int) (e : Expr) (ch : Nat) :
    ∀ v : Int, eval_expr tcase e = some v →
      eval_expr tcase (simplify_expr e ch).1 = some v := by
  match e with
  | .int k => intro v h; exact h
  | .var s => intro v h; exact h
  | .call name args => intro v h; exact absurd h (by simp [eval_expr])
  | .binop op l r =>
    intro v h
    simp only [eval_expr] at h
    cases hel : eval_expr tcase l with
    | none => rw [hel] at h; exact absurd h (by simp)
    | some a =>
      rw [hel] at h
      cases her : eval_expr tcase r with
      | none => rw [her] at h; exact absurd h (by simp)
      | some b =>
        rw [her] at h
        have ih1 : eval_expr tcase (simplify_expr l ch).1 = some a :=
          simplify_expr_preserves tcase l ch a hel
        have ih2 : eval_expr tcase
            (simplify_expr r (simplify_expr l ch).2).1 = some b :=
          simplify_expr_preserves tcase r (simplify_expr l ch).2 b her
        simp only [simplify_expr]
        unfold simplify_binop
        split
        · simp_all [eval_expr]; omega
        · simp_all [eval_expr]; omega
        · simp_all [eval_expr]; subst ih2; simpa using h
        · simp_all [eval_expr]; subst ih1; simpa using h
        · simp_all [eval_expr]; subst ih2; simpa using h
        · simp_all [eval_expr]; subst ih1; simpa using h
        · simp_all [eval_expr]

/-- Witness for C3 (amended): under the binding `x = 7`, the
simplification of `x + 0` still evaluates to `7`. -/
theorem simplify_expr_preserves_witness :
    eval_expr (fun s => if s = "x" then some 7 else none)
      (simplify_expr (.binop .add (.var "x") (.int 0)) 0).1 = some 7 :=
  simplify_expr_preserves (fun s => if s = "x" then some 7 else none)
    (.binop .add (.var "x") (.int 0)) 0 7 rfl

/-- C4: a loop whose count `n` satisfies `0 < n ≤ max_unroll` is replaced
by an always-true `if` shell whose then-block is exactly `n`
concatenated copies of the body, with at least one change counted; a
loop with `n > max_unroll` is returned unchanged with zero changes. -/
theorem loop_unrolling_bound (tr : SemanticTransformer) (n : Int) (b : List Stmt) :
    (0 < n → n ≤ tr.max_unroll →
      (tr.transform_stmt (.loop n b) .loopUnrolling).transformed
          = .ifStmt (.int 1) ((List.replicate n.toNat b).flatten) [] ∧
      1 ≤ (tr.transform_stmt (.loop n b) .loopUnrolling).changes_made) ∧
    (tr.max_unroll < n →
      (tr.transform_stmt (.loop n b) .loopUnrolling).transformed = .loop n b ∧
      (tr.transform_stmt (.loop n b) .loopUnrolling).changes_made = 0) := by
  constructor
  · intro h1 h2
    simp [SemanticTransformer.transform_stmt, apply_loop_unrolling, h1, h2,
      unroll_copies_eq]
  · intro h
    have hn : ¬(n ≤ tr.max_unroll) := not_le.mpr h
    simp [SemanticTransformer.transform_stmt, apply_loop_unrolling, hn]

/-- Witness for C4: a 3-iteration loop over one statement unrolls to
three copies in the shell, and a 100-iteration loop (over the default
`max_unroll = 8`) is untouched with zero changes. -/
theorem loop_unrolling_bound_witness :
    (SemanticTransformer.new.transform_stmt (.loop 3 [.expr (.int 1)])
        .loopUnrolling).transformed
      = .ifStmt (.int 1) [.expr (.int 1), .expr (.int 1), .expr (.int 1)] [] ∧
    1 ≤ (SemanticTransformer.new.transform_stmt (.loop 3 [.expr (.int 1)])
        .loopUnrolling).changes_made ∧
    (SemanticTransformer.new.transform_stmt (.loop 100 [.expr (.int 1)])
        .loopUnrolling).transformed = .loop 100 [.expr (.int 1)] ∧
    (SemanticTransformer.new.transform_stmt (.loop 100 [.expr (.int 1)])
        .loopUnrolling).changes_made = 0 := by
  have h1 := (loop_unrolling_bound SemanticTransformer.new 3 [.expr (.int 1)]).1
    (by decide) (by decide)
  have h2 := (loop_unrolling_bound SemanticTransformer.new 100 [.expr (.int 1)]).2
    (by decide)
  exact ⟨by rw [h1.1]; rfl, h1.2, h2.1, h2.2⟩

/-- Unfolded form of the single-entry rename lookup. -/
theorem rename_if_needed_single (o n : String) :
    (single_rename o n).rename_if_needed = fun x => if x = o then n else x := by
  funext x
  unfold single_rename AstTransformer.rename_if_needed
  by_cases h : x = o <;> simp [h]

/-- Occurrence count of one renamed name position under a single-entry
rename table. -/
theorem count_single (o n : String) (hon : o ≠ n) (s x : String) :
    (if (if x = o then n else x) = s then (1:Nat) else 0)
      = if s = o then 0
        else (if x = s then 1 else 0) + (if s = n then (if x = o then 1 else 0) else 0) := by
  by_cases hxo : x = o <;> by_cases hso : s = o <;> by_cases hsn : s = n <;>
    simp_all
  · exact fun h => hon h.symm
  · rw [if_neg fun h => hsn h.symm, if_neg fun h => hso h.symm]

/-- Occurrence counts of a renamed parameter list under a single-entry
rename table. -/
theorem countNames_single (o n : String) (hon : o ≠ n) (l : List String) (s : String) :
    countNames s (l.map fun x => if x = o then n else x)
      = if s = o then 0
        else countNames s l + (if s = n then countNames o l else 0) := by
  induction l with
  | nil => simp [countNames]
  | cons x xs ih =>
    simp only [List.map_cons, countNames, ih, count_single o n hon s x]
    all_goals split_ifs <;> simp_all <;> try omega

mutual
/-- Occurrence counts after the rename rewrite with a single-entry
table: occurrences of the old name vanish, occurrences of the new name
absorb them, every other name keeps its count. -/
theorem countOcc_transform (o n : String) (hon : o ≠ n) (node : AstNode) (s : String) :
    countOcc s ((single_rename o n).transform node)
      = if s = o then 0
        else countOcc s node + (if s = n then countOcc o node else 0) := by
  cases node with
  | program nodes =>
    simp only [AstTransformer.transform, countOcc]
    exact countOccList_transform o n hon nodes s
  | function name params body =>
    simp only [AstTransformer.transform, countOcc, rename_if_needed_single,
      countNames_single o n hon params s,
      countOccList_transform o n hon body s, count_single o n hon s name]
    all_goals split_ifs <;> simp_all <;> try omega
  | varDecl name value =>
    simp only [AstTransformer.transform, countOcc,
      rename_if_needed_single, countOcc_transform o n hon value s,
      count_single o n hon s name]
    all_goals split_ifs <;> simp_all <;> try omega
  | assignment target value =>
    simp only [AstTransformer.transform, countOcc,
      rename_if_needed_single, countOcc_transform o n hon value s,
      count_single o n hon s target]
    all_goals split_ifs <;> simp_all <;> try omega
  | binaryOp op l r =>
    simp only [AstTransformer.transform, countOcc,
      countOcc_transform o n hon l s, countOcc_transform o n hon r s]
    all_goals split_ifs <;> simp_all <;> try omega
  | call f args =>
    simp only [AstTransformer.transform, countOcc, rename_if_needed_single,
      countOccList_transform o n hon args s, count_single o n hon s f]
    all_goals split_ifs <;> simp_all <;> try omega
  | ifNode c tb eb =>
    cases eb with
    | none =>
      simp only [AstTransformer.transform, countOcc,
        countOcc_transform o n hon c s, countOccList_transform o n hon tb s]
      all_goals split_ifs <;> simp_all <;> try omega
    | some nodes =>
      simp only [AstTransformer.transform, countOcc,
        countOcc_transform o n hon c s, countOccList_transform o n hon tb s,
        countOccList_transform o n hon nodes s]
      all_goals split_ifs <;> simp_all <;> try omega
  | ret e =>
    simp only [AstTransformer.transform, countOcc, countOcc_transform o n hon e s]
  | identifier name =>
    simp only [AstTransformer.transform, countOcc, rename_if_needed_single,
      count_single o n hon s name]
  | literal lit =>
    simp only [AstTransformer.transform, countOcc]
    all_goals split_ifs <;> simp_all

/-- List version of `countOcc_transform`. -/
theorem countOccList_transform (o n : String) (hon : o ≠ n)
    (nodes : List AstNode) (s : String) :
    countOccList s (AstTransformer.transform_list (single_rename o n) nodes)
      = if s = o then 0
        else countOccList s nodes + (if s = n then countOccList o nodes else 0) := by
  cases nodes with
  | nil => simp [AstTransformer.transform_list, countOccList]
  | cons x rest =>
    simp only [AstTransformer.transform_list, countOccList,
      countOcc_transform o n hon x s, countOccList_transform o n hon rest s]
    all_goals split_ifs <;> simp_all <;> try omega
end

/-- C5: after the rename rewrite with the table `old → new`, no name
position holds `old`, every position that previously held `old` now
counts toward `new`, and any name other than `old` and `new` keeps its
occurrence count. -/
theorem rename_totality (node : AstNode) (s : String)
    (hs1 : s ≠ "old") (hs2 : s ≠ "new") :
    countOcc "old" ((single_rename "old" "new").transform node) = 0 ∧
    countOcc "new" ((single_rename "old" "new").transform node)
      = countOcc "new" node + countOcc "old" node ∧
    countOcc s ((single_rename "old" "new").transform node) = countOcc s node := by
  have hon : "old" ≠ "new" := by decide
  refine ⟨?_, ?_, ?_⟩
  · simpa using countOcc_transform "old" "new" hon node "old"
  · simpa using countOcc_transform "old" "new" hon node "new"
  · have h := countOcc_transform "old" "new" hon node s
    rw [if_neg hs1, if_neg hs2] at h
    simpa using h

/-- Witness for C5: renaming a function named `old` with parameter
`keep` and a body mentioning `old`. -/
theorem rename_totality_witness :
    countOcc "old" ((single_rename "old" "new").transform
        (.function "old" ["keep"] [.ret (.identifier "old")])) = 0 ∧
    countOcc "new" ((single_rename "old" "new").transform
        (.function "old" ["keep"] [.ret (.identifier "old")]))
      = countOcc "new" (.function "old" ["keep"] [.ret (.identifier "old")])
        + countOcc "old" (.function "old" ["keep"] [.ret (.identifier "old")]) ∧
    countOcc "keep" ((single_rename "old" "new").transform
        (.function "old" ["keep"] [.ret (.identifier "old")]))
      = countOcc "keep" (.function "old" ["keep"] [.ret (.identifier "old")]) :=
  rename_totality (.function "old" ["keep"] [.ret (.identifier "old")]) "keep"
    (by decide) (by decide)

/-- C6: a binary operation whose operands fold to integer literals folds
to the single literal result of the operator, except that a division
whose folded divisor is the literal zero is left as a binary operation
over the folded operands; a variable marked constant is substituted with
its literal value, and any other variable passes through unchanged. -/
theorem constant_fold_cases (cv : String → Option Int) :
    (∀ (op : Op) (l r : Expr) (a b : Int),
      constant_fold cv l = .int a → constant_fold cv r = .int b →
      (¬(op = .div ∧ b = 0) →
        constant_fold cv (.binop op l r) = .int (op_denote op a b)) ∧
      (op = .div → b = 0 →
        constant_fold cv (.binop op l r) = .binop .div (.int a) (.int b))) ∧
    (∀ name v, cv name = some v → constant_fold cv (.var name) = .int v) ∧
    (∀ name, cv name = none → constant_fold cv (.var name) = .var name) := by
  refine ⟨?_, ?_, ?_⟩
  · intro op l r a b hl hr
    constructor
    · intro hno
      cases op <;> simp only [constant_fold, hl, hr, op_denote]
      rw [if_pos]
      intro hb
      exact hno ⟨rfl, hb⟩
    · intro hop hb
      subst hop hb
      simp [constant_fold, hl, hr]
  · intro name v hv
    simp [constant_fold, hv]
  · intro name hv
    simp [constant_fold, hv]

/-- Witness for C6: `2 + 3` folds to `5`, `7 / 0` is left unfolded, and
a variable marked constant `10` is substituted. -/
theorem constant_fold_cases_witness :
    constant_fold (fun _ => none) (.binop .add (.int 2) (.int 3)) = .int 5 ∧
    constant_fold (fun _ => none) (.binop .div (.int 7) (.int 0))
      = .binop .div (.int 7) (.int 0) ∧
    constant_fold (fun s => if s = "x" then some 10 else none) (.var "x") = .int 10 := by
  refine ⟨?_, ?_, ?_⟩
  · exact (((constant_fold_cases (fun _ => none)).1 .add (.int 2) (.int 3) 2 3
      rfl rfl).1 (by decide)).trans rfl
  · exact ((constant_fold_cases (fun _ => none)).1 .div (.int 7) (.int 0) 7 0
      rfl rfl).2 rfl rfl
  · exact (constant_fold_cases (fun s => if s = "x" then some 10 else none)).2.1
      "x" 10 rfl

/-- C7: constant folding is idempotent: for any constant-variable map,
folding an already folded expression changes nothing. -/
theorem constant_fold_idem (cv : String → Option Int) (e : Expr) :
    constant_fold cv (constant_fold cv e) = constant_fold cv e := by
  refine constant_fold.induct cv
    (fun e => constant_fold cv (constant_fold cv e) = constant_fold cv e)
    (fun l => constant_fold_list cv (constant_fold_list cv l) = constant_fold_list cv l)
    ?_ ?_ ?_ ?_ ?_ ?_ ?_ ?_ ?_ ?_ ?_ ?_ e
  · intro l r a b hr hl ihl ihr
    simp [constant_fold, hl, hr]
  · intro l r a b hr hl ihl ihr
    simp [constant_fold, hl, hr]
  · intro l r a b hr hl ihl ihr
    simp [constant_fold, hl, hr]
  · intro l r a b hr hl hb ihl ihr
    simp [constant_fold, hl, hr, hb]
  · intro l r a b hr hl hb ihl ihr
    simp only [not_not] at hb
    simp [constant_fold, hl, hr, hb]
  · intro op l r hne ihl ihr
    have hstep : constant_fold cv (.binop op l r)
        = .binop op (constant_fold cv l) (constant_fold cv r) := by
      simp only [constant_fold]
    rw [hstep]
    simp only [constant_fold, ihl, ihr]
  · intro name v hv
    simp [constant_fold, hv]
  · intro name hv
    simp [constant_fold, hv]
  · intro name args ih
    simp [constant_fold, ih]
  · intro n
    simp [constant_fold]
  · rfl
  · intro x xs ih1 ih2
    simp [constant_fold_list, ih1, ih2]

/-- C9: the expression-simplification strategy leaves `if` and `loop`
statements structurally unchanged with zero changes counted: it rewrites
only the expressions of assignments and expression statements and never
descends into branches or loop bodies. -/
theorem expression_simplification_frame (tr : SemanticTransformer)
    (c : Expr) (tb eb body : List Stmt) (n : Int) :
    ((tr.transform_stmt (.ifStmt c tb eb) .expressionSimplification).transformed
        = .ifStmt c tb eb ∧
      (tr.transform_stmt (.ifStmt c tb eb) .expressionSimplification).changes_made = 0) ∧
    ((tr.transform_stmt (.loop n body) .expressionSimplification).transformed
        = .loop n body ∧
      (tr.transform_stmt (.loop n body) .expressionSimplification).changes_made = 0) :=
  ⟨⟨rfl, rfl⟩, ⟨rfl, rfl⟩⟩

mutual
/-- The statement renderer restores the indentation level: every
increment around a block body is matched by the decrement after it. -/
theorem generate_node_level (sz : Nat) (node : AstNode) (lvl : Nat) :
    (generate_node sz node lvl).2 = lvl := by
  cases node with
  | program nodes =>
    simp [generate_node, generate_node_list_level sz nodes lvl]
  | function name params body =>
    simp [generate_node, generate_body_level sz body (lvl + 1)]
  | varDecl name value => simp [generate_node]
  | assignment t v => simp [generate_node]
  | binaryOp op l r => simp [generate_node]
  | call f args => simp [generate_node]
  | ifNode c tb eb =>
    cases eb with
    | none => simp [generate_node, generate_body_level sz tb (lvl + 1)]
    | some nodes =>
      simp [generate_node, generate_body_level sz tb (lvl + 1),
        generate_body_level sz nodes (lvl + 1)]
  | ret e => simp [generate_node]
  | identifier name => simp [generate_node]
  | literal lit => simp [generate_node]

/-- List version of `generate_node_level` for top-level node lists. -/
theorem generate_node_list_level (sz : Nat) (nodes : List AstNode) (lvl : Nat) :
    (generate_node_list sz nodes lvl).2 = lvl := by
  cases nodes with
  | nil => rfl
  | cons x rest =>
    simp [generate_node_list, generate_node_level sz x lvl,
      generate_node_list_level sz rest lvl]

/-- List version of `generate_node_level` for block bodies. -/
theorem generate_body_level (sz : Nat) (nodes : List AstNode) (lvl : Nat) :
    (generate_body sz nodes lvl).2 = lvl := by
  cases nodes with
  | nil => rfl
  | cons x rest =>
    simp [generate_body, generate_node_level sz x lvl,
      generate_body_level sz rest lvl]
end

/-- C8: code generation is deterministic: a call leaves the generator in
its starting state (the indentation level is restored), so a second call
on the same tree produces byte-identical text. -/
theorem generate_deterministic (g : CodeGenerator) (ast : AstNode) :
    (g.generate ast).2 = g ∧
    ((g.generate ast).2.generate ast).1 = (g.generate ast).1 := by
  have h2 : (g.generate ast).2 = g := by
    unfold CodeGenerator.generate
    cases g with
    | mk lvl sz => simp [generate_node_level]
  exact ⟨h2, by rw [h2]⟩

/-- C10: for nonzero literal divisors, both constant folding and scenario
evaluation compute the i64 quotient truncated toward zero. -/
theorem division_truncates (cv tcase : String → Option Int) (l r : Int) (h : r ≠ 0) :
    constant_fold cv (.binop .div (.int l) (.int r)) = .int (Int.tdiv l r) ∧
    eval_expr tcase (.binop .div (.int l) (.int r)) = some (Int.tdiv l r) := by
  constructor
  · simp [constant_fold, h]
  · simp [eval_expr, h]

/-- Witness for C10: `-7 / 2` folds and evaluates to `-3` (truncation
toward zero, not floor division's `-4`). -/
theorem division_truncates_witness :
    constant_fold (fun _ => none) (.binop .div (.int (-7)) (.int 2)) = .int (-3) ∧
    eval_expr (fun _ => none) (.binop .div (.int (-7)) (.int 2)) = some (-3) := by
  have h := division_truncates (fun _ => none) (fun _ => none) (-7) 2 (by decide)
  exact ⟨by rw [h.1]; rfl, by rw [h.2]; rfl⟩

end Batuta
